import Mathlib

/-!
Shallow embedding of `src/index.ts` of the vue-i18n-loader repository.

Strings of the TypeScript source are modelled as `List Char`.  JavaScript
values produced by the external parsers (`js-yaml`, `JSON5`, `JSON.parse`)
are modelled by the inductive type `Json`.  The external collaborators
named by the design document (the format parsers, the temp-directory
allocator, the webpack host) enter as parameters; everything written in
`index.ts` itself is translated below.
-/

/-- Model of a parsed JavaScript/JSON value, the result type of the
black-box parsers used by the loader. -/
inductive Json where
  | null : Json
  | bool : Bool → Json
  | num : Int → Json
  | str : List Char → Json
  | arr : List Json → Json
  | obj : List (List Char × Json) → Json

/-- Model of `String.prototype.replace` with a global single-character
pattern `p` and a `$`-free replacement `r`: every occurrence of `p` is
substituted by `r`, left to right, and replacement text is not rescanned. -/
def replaceChar (p : Char) (r : List Char) (s : List Char) : List Char :=
  s.flatMap (fun c => if c = p then r else [c])

/-- Translation of `cleanMessagesString` (src/index.ts, lines 87-93):
the four chained `.replace` calls, applied in source order - U+2028,
U+2029, backslash, then the single-quote code point U+0027. -/
def cleanMessagesString (messagesString : List Char) : List Char :=
  replaceChar '\x27' "\\u0027".toList
    (replaceChar '\\' "\\\\".toList
      (replaceChar '\u2029' "\\u2029".toList
        (replaceChar '\u2028' "\\u2028".toList messagesString)))

/-- Per-character description of what the composed substitutions of
`cleanMessagesString` do to each character of the ORIGINAL input (the
proof that the composition equals this single pass is `clean_eq_bind`).
Note the separators come out with a doubled backslash (their escapes are
introduced before the backslash pass and get re-escaped by it), while the
quote escape, inserted last, keeps a single backslash. -/
def cleanChar (c : Char) : List Char :=
  if c = '\u2028' then "\\\\u2028".toList
  else if c = '\u2029' then "\\\\u2029".toList
  else if c = '\\' then "\\\\".toList
  else if c = '\x27' then "\\u0027".toList
  else [c]

/-- Value of a hexadecimal digit, case-insensitive, as in JavaScript
escape sequences. -/
def hexVal (c : Char) : Option Nat :=
  if '0' ≤ c ∧ c ≤ '9' then some (c.toNat - '0'.toNat)
  else if 'a' ≤ c ∧ c ≤ 'f' then some (c.toNat - 'a'.toNat + 10)
  else if 'A' ≤ c ∧ c ≤ 'F' then some (c.toNat - 'A'.toNat + 10)
  else none

/-- True for a decimal digit. -/
def isDigitChar (c : Char) : Bool := '0' ≤ c && c ≤ '9'

/-- True for a JavaScript line terminator (the characters that start a
line continuation after a backslash). -/
def isLineTermChar (c : Char) : Bool :=
  c = '\n' || c = '\r' || c = '\u2028' || c = '\u2029'

/-- Strict-mode JavaScript unescaping of the CONTENT of a string literal:
`\uXXXX` and `\xXX` hex escapes, the single-character escapes
`\n \t \r \b \f \v \0`, line continuations, and identity escapes for every
other character; malformed escapes (bad hex, octal-style digit escapes, a
dangling final backslash) make the literal a syntax error, modelled as
`none`.  The `\u{...}` code-point form is not modelled; the sanitizer
never emits it. -/
def jsUnescape : List Char → Option (List Char)
  | [] => some []
  | c :: rest =>
    if c = '\\' then
      match rest with
      | [] => none
      | 'u' :: a :: b :: c2 :: d :: rest2 =>
        match hexVal a, hexVal b, hexVal c2, hexVal d with
        | some ha, some hb, some hc, some hd =>
          (jsUnescape rest2).map (Char.ofNat (((ha * 16 + hb) * 16 + hc) * 16 + hd) :: ·)
        | _, _, _, _ => none
      | 'x' :: a :: b :: rest2 =>
        match hexVal a, hexVal b with
        | some ha, some hb => (jsUnescape rest2).map (Char.ofNat (ha * 16 + hb) :: ·)
        | _, _ => none
      | '\r' :: '\n' :: rest2 => jsUnescape rest2
      | d :: rest2 =>
        if d = 'n' then (jsUnescape rest2).map (Char.ofNat 10 :: ·)
        else if d = 't' then (jsUnescape rest2).map (Char.ofNat 9 :: ·)
        else if d = 'r' then (jsUnescape rest2).map (Char.ofNat 13 :: ·)
        else if d = 'b' then (jsUnescape rest2).map (Char.ofNat 8 :: ·)
        else if d = 'f' then (jsUnescape rest2).map (Char.ofNat 12 :: ·)
        else if d = 'v' then (jsUnescape rest2).map (Char.ofNat 11 :: ·)
        else if d = '0' then
          if (rest2.head?.map isDigitChar).getD false then none
          else (jsUnescape rest2).map (Char.ofNat 0 :: ·)
        else if isDigitChar d then none
        else if d = 'u' ∨ d = 'x' then none
        else if isLineTermChar d then jsUnescape rest2
        else (jsUnescape rest2).map (d :: ·)
    else (jsUnescape rest).map (c :: ·)

/-- JavaScript truthiness of a parsed value. -/
def jsTruthy : Json → Bool
  | Json.null => false
  | Json.bool b => b
  | Json.num n => n != 0
  | Json.str s => !s.isEmpty
  | Json.arr _ => true
  | Json.obj _ => true

/-- Lookup of an own property in an object modelled as an association
list (first occurrence; objects built by the code below never hold a
duplicate key, mirroring JavaScript objects). -/
def lookupProp : List (List Char × Json) → List Char → Option Json
  | [], _ => none
  | (k, v) :: rest, key => if k = key then some v else lookupProp rest key

/-- Model of `CreateDataProperty` during object-literal evaluation: an
existing key keeps its position and gets the new value, a new key is
appended. -/
def setProp : List (List Char × Json) → List Char → Json → List (List Char × Json)
  | [], k, v => [(k, v)]
  | (k1, v1) :: rest, k, v =>
    if k1 = k then (k1, v) :: rest else (k1, v1) :: setProp rest k v

/-- Evaluation of an object literal from the stream of key/value pairs
contributed by its spread arguments, in order - later pairs win on value,
first insertion wins on position. -/
def objectFrom (entries : List (List Char × Json)) : List (List Char × Json) :=
  entries.foldl (fun acc p => setProp acc p.1 p.2) []

/-- Canonical array-index reading of a property key ("0", "17", ...),
as used by JavaScript indexed access on arrays and strings. -/
def canonicalIndex (k : List Char) : Option Nat :=
  if k = ['0'] then some 0
  else if k ≠ [] ∧ k.all isDigitChar ∧ k.head? ≠ some '0' then
    some (k.foldl (fun n c => n * 10 + (c.toNat - '0'.toNat)) 0)
  else none

/-- Model of JavaScript property access `value[key]`: own entries of an
object, indexed elements of an array or string; `none` is `undefined`.
Inherited prototype properties and `length` are not modelled - in this
pipeline such a value is only ever spread into an object literal, where
it contributes nothing, exactly like `undefined`. -/
def jsIndex : Json → List Char → Option Json
  | Json.obj kvs, k => lookupProp kvs k
  | Json.arr xs, k =>
    match canonicalIndex k with
    | some i => xs.get? i
    | none => none
  | Json.str s, k =>
    match canonicalIndex k with
    | some i => (s.get? i).map (fun c => Json.str [c])
    | none => none
  | _, _ => none

/-- Pairs contributed to an object literal by spreading the given value
(`none` plays `undefined`): an object spreads its entries, an array or a
string its indexed elements, everything else nothing. -/
def objSpread : Option Json → List (List Char × Json)
  | none => []
  | some (Json.obj kvs) => kvs
  | some (Json.arr xs) =>
    (List.enum xs).map (fun p => ((toString p.1).toList, p.2))
  | some (Json.str s) =>
    (List.enum s).map (fun p => ((toString p.1).toList, Json.str [p.2]))
  | some _ => []

/-- First-some choice on optional values, the shape of a JavaScript
property that falls back to another. -/
def oor : Option Json → Option Json → Option Json
  | some v, _ => some v
  | none, b => b

/-- Lookup that returns the LAST binding of a key in a raw entry stream -
the value an object literal built from that stream ends up with. -/
def lastLookup (entries : List (List Char × Json)) (key : List Char) : Option Json :=
  lookupProp entries.reverse key

/-- Keys of an entry list. -/
def keysOf (entries : List (List Char × Json)) : List (List Char) :=
  entries.map Prod.fst

/-- Lowercase hexadecimal digit. -/
def hexDigit (n : Nat) : Char :=
  if n < 10 then Char.ofNat ('0'.toNat + n) else Char.ofNat ('a'.toNat + n - 10)

/-- Escaping of one character inside a JSON string, as `JSON.stringify`
performs it: quote, backslash, the named control escapes, and `\u00xx`
for the remaining control characters. -/
def escapeJsonChar (c : Char) : List Char :=
  if c = '"' then ['\\', '"']
  else if c = '\\' then ['\\', '\\']
  else if c = Char.ofNat 8 then ['\\', 'b']
  else if c = Char.ofNat 9 then ['\\', 't']
  else if c = Char.ofNat 10 then ['\\', 'n']
  else if c = Char.ofNat 12 then ['\\', 'f']
  else if c = Char.ofNat 13 then ['\\', 'r']
  else if c.toNat < 32 then
    "\\u00".toList ++ [hexDigit (c.toNat / 16), hexDigit (c.toNat % 16)]
  else [c]

/-- Model of `QuoteJSONString`. -/
def quoteJsonString (s : List Char) : List Char :=
  '"' :: s.flatMap escapeJsonChar ++ ['"']

mutual
/-- Model of `JSON.stringify(value, undefined, space)` restricted to the
values of `Json`: `gap` is the indentation unit derived from `space`
(empty means compact output), `indent` the current indentation. -/
def serializeJson (gap indent : List Char) : Json → List Char
  | Json.null => "null".toList
  | Json.bool b => if b then "true".toList else "false".toList
  | Json.num n => (toString n).toList
  | Json.str s => quoteJsonString s
  | Json.arr items =>
    if items.isEmpty then "[]".toList
    else
      if gap.isEmpty then
        ('[' :: List.intercalate [','] (serializeItems gap indent items)) ++ [']']
      else
        ('[' :: '\n' :: (indent ++ gap) ++
            List.intercalate (',' :: '\n' :: (indent ++ gap))
              (serializeItems gap (indent ++ gap) items)) ++
          '\n' :: indent ++ [']']
  | Json.obj members =>
    if members.isEmpty then "\x7b\x7d".toList
    else
      if gap.isEmpty then
        ('\x7b' :: List.intercalate [','] (serializeMembers gap indent members)) ++
          ['\x7d']
      else
        ('\x7b' :: '\n' :: (indent ++ gap) ++
            List.intercalate (',' :: '\n' :: (indent ++ gap))
              (serializeMembers gap (indent ++ gap) members)) ++
          '\n' :: indent ++ ['\x7d']

/-- Serialized elements of an array. -/
def serializeItems (gap indent : List Char) : List Json → List (List Char)
  | [] => []
  | j :: rest => serializeJson gap indent j :: serializeItems gap indent rest

/-- Serialized members of an object: quoted key, colon (plus a space when
pretty-printing), value. -/
def serializeMembers (gap indent : List Char) :
    List (List Char × Json) → List (List Char)
  | [] => []
  | (k, v) :: rest =>
    (quoteJsonString k ++ ':' :: (if gap.isEmpty then [] else [' ']) ++
        serializeJson gap indent v) :: serializeMembers gap indent rest
end

/-- A value of Node's parsed query string (`ParsedUrlQuery`): missing,
a single string, or an array of strings for a repeated parameter. -/
inductive QueryValue where
  | absent : QueryValue
  | str : List Char → QueryValue
  | strs : List (List Char) → QueryValue
deriving DecidableEq

/-- JavaScript truthiness of a parsed query value: `undefined` and the
empty string are falsy, every other string and every array is truthy. -/
def queryTruthy : QueryValue → Bool
  | QueryValue.absent => false
  | QueryValue.str s => !s.isEmpty
  | QueryValue.strs _ => true

/-- The three resource query parameters the loader reads. -/
structure Attrs where
  lang : QueryValue
  locale : QueryValue
  lazy : QueryValue

/-- Translation of the `VueI18nLoaderOptions` type: both fields optional. -/
structure VueI18nLoaderOptions where
  locales : Option (List (List Char))
  fallbackLocale : Option (List Char)

/-- The black-box format parsers (js-yaml `safeLoad`, `JSON5.parse`,
`JSON.parse`), external collaborators of the loader: each either throws
(left: the thrown message) or returns a value. -/
structure Parsers where
  yamlParse : List Char → Except (List Char) Json
  json5Parse : List Char → Except (List Char) Json
  jsonParse : List Char → Except (List Char) Json

/-- The configuration error message thrown by
`generateDynamicRequireString`. -/
def configErrorMsg : List Char :=
  "[VueI18nLoaderPlugin Error] The options \"locales\" and \"fallbackLocale\" are required with lazy loaded files.".toList

/-- An error escaping the pipeline: a parser throw or the lazy-mode
configuration error. -/
inductive LoaderErr where
  | parse : List Char → LoaderErr
  | config : LoaderErr
deriving DecidableEq

/-- The `message` property of the thrown error. -/
def LoaderErr.message : LoaderErr → List Char
  | LoaderErr.parse msg => msg
  | LoaderErr.config => configErrorMsg

/-- Observable effects of one loader invocation, in program order:
scratch-directory allocation (`tmp.dirSync`), fragment writes
(`fs.writeFileSync`), cacheable marking, error emission, and the final
host callback. -/
inductive Event where
  | cacheable : Event
  | allocDir : List Char → Event
  | writeFile : List Char → List Char → Event
  | emitError : List Char → Event
  | callbackErr : List Char → Event
  | callbackOk : List Char → Event
deriving DecidableEq

/-- Translation of `convert` (src/index.ts, lines 68-81): dispatch on the
`lang` tag.  The TypeScript cast `attrs.lang as string` lets a missing or
repeated parameter reach the switch, where it matches no case and falls
through to the default. -/
def convert (P : Parsers) (source : List Char) (lang : QueryValue) :
    Except LoaderErr (List Char) :=
  if lang = QueryValue.str "yaml".toList ∨ lang = QueryValue.str "yml".toList then
    match P.yamlParse source with
    | Except.ok data => Except.ok (serializeJson "\t".toList [] data)
    | Except.error m => Except.error (LoaderErr.parse m)
  else if lang = QueryValue.str "json5".toList then
    match P.json5Parse source with
    | Except.ok data => Except.ok (serializeJson [] [] data)
    | Except.error m => Except.error (LoaderErr.parse m)
  else
    Except.ok source

/-- Translation of `stringifyMessages` (src/index.ts, lines 83-85):
compact-stringify, sanitize, wrap in single quotes. -/
def stringifyMessages (messages : Json) : List Char :=
  '\x27' :: cleanMessagesString (serializeJson [] [] messages) ++ ['\x27']

/-- The locale-override step of `generateCode` (src/index.ts, lines
54-56): `attrs.locale && typeof attrs.locale === 'string'` guards the
rewrap `Object.assign({}, { [attrs.locale]: messages })`. -/
def buildMessages (parsed : Json) (locale : QueryValue) : Json :=
  match locale with
  | QueryValue.str l => if l.isEmpty then parsed else Json.obj [(l, parsed)]
  | _ => parsed

/-- Model of `value || {}`. -/
def jsOrEmptyObj : Option Json → Json
  | some v => if jsTruthy v then v else Json.obj []
  | none => Json.obj []

/-- The merged per-locale entry list of the lazy materializer:
`{ ...messages[fallbackLocale], ...(messages[locale] || {}) }`. -/
def mergedOf (messages : Json) (fb locale : List Char) :
    List (List Char × Json) :=
  objectFrom (objSpread (jsIndex messages fb) ++
    objSpread (some (jsOrEmptyObj (jsIndex messages locale))))

/-- The value written for one locale:
`{ [locale]: { ...fallback, ...override } }`. -/
def localeSpecificMessages (messages : Json) (fb locale : List Char) : Json :=
  Json.obj [(locale, Json.obj (mergedOf messages fb locale))]

/-- The fragment path `dir.name + "/" + prefix + locale + "__" + filename`. -/
def fragPath (freshDir locale filename : List Char) : List Char :=
  freshDir ++ "/__vue-i18n__".toList ++ locale ++ "__".toList ++ filename

/-- The returned dynamic require expression. -/
def requireStr (freshDir filename : List Char) : List Char :=
  "require(\x27".toList ++ freshDir ++
    "/__vue-i18n__\x27 + window.__VUE_I18N_CURRENT_LOCALE__ + \x27__".toList ++
    filename ++ "\x27)".toList

/-- Translation of `generateDynamicRequireString` (src/index.ts, lines
108-135).  `freshDir` is the name the black-box allocator `tmp.dirSync`
would return; its allocation and the `fs.writeFileSync` calls are
recorded as events in program order.  The guard models the JavaScript
test `!options.locales || !options.fallbackLocale`: an absent `locales`,
an absent `fallbackLocale`, or an empty-string `fallbackLocale` is falsy
(an empty `locales` ARRAY is truthy and passes). -/
def generateDynamicRequireString (freshDir filename : List Char)
    (messages : Json) (options : VueI18nLoaderOptions) :
    Except LoaderErr (List Char) × List Event :=
  match options.locales, options.fallbackLocale with
  | some ls, some fb =>
    if fb.isEmpty then (Except.error LoaderErr.config, [])
    else
      (Except.ok (requireStr freshDir filename),
        Event.allocDir freshDir ::
          ls.map (fun locale =>
            Event.writeFile (fragPath freshDir locale filename)
              (serializeJson "  ".toList [] (localeSpecificMessages messages fb locale))))
  | _, _ => (Except.error LoaderErr.config, [])

/-- Path separator characters of the filename regular expression. -/
def isSepChar (c : Char) : Bool := c = '/' || c = '\\'

/-- Characters that end a filename segment. -/
def isStopChar (c : Char) : Bool := isSepChar c || c = '?'

/-- First match of group 2 of the filename pattern: scanning left to
right, the first maximal run of non-separator non-query characters that
starts at the string start or after a separator and is followed by `?`
or the end of the string.  (The greedy one-or-more cannot backtrack into
a shorter successful match, so this scan is exactly the behaviour of
`resourcePath.match` with the source pattern.) -/
def findSegment (atSegStart : Bool) (path : List Char) : Option (List Char) :=
  match path with
  | [] => none
  | c :: rest =>
    if atSegStart && !isStopChar c then
      let run := c :: rest.takeWhile (fun x => !isStopChar x)
      match hrest : rest.dropWhile (fun x => !isStopChar x) with
      | [] => some run
      | d :: rest3 => if d = '?' then some run else findSegment true rest3
    else findSegment (isSepChar c) rest
termination_by path.length
decreasing_by
  · have hle : (rest.dropWhile (fun x => !isStopChar x)).length ≤ rest.length :=
      (List.dropWhile_suffix (fun x => !isStopChar x)).length_le
    rw [hrest] at hle
    simp at hle ⊢
    omega
  · simp

/-- Translation of `stringifyLazyMessages` (src/index.ts, lines 95-107):
filename extraction with the `locale.json` default, then the dynamic
require string wrapped in `JSON.stringify(...)`. -/
def stringifyLazyMessages (freshDir resourcePath : List Char)
    (messages : Json) (options : VueI18nLoaderOptions) :
    Except LoaderErr (List Char) × List Event :=
  let filename := (findSegment true resourcePath).getD "locale.json".toList
  match generateDynamicRequireString freshDir filename messages options with
  | (Except.ok r, evs) =>
    (Except.ok ("JSON.stringify(".toList ++ r ++ [')']), evs)
  | (Except.error e, evs) => (Except.error e, evs)

/-- Text of the emitted module before the pushed entry. -/
def emitHead : List Char :=
  "module.exports = function (Component) \x7b\n  Component.options.__i18n = Component.options.__i18n || []\n  Component.options.__i18n.push(".toList

/-- Text of the emitted module after the pushed entry. -/
def emitTail : List Char :=
  ")\n  delete Component.options._Ctor\n\x7d\n".toList

/-- The template literal returned by `generateCode` (src/index.ts, lines
61-65): the entry is spliced in verbatim. -/
def emitModule (messagesString : List Char) : List Char :=
  emitHead ++ messagesString ++ emitTail

/-- Translation of `generateCode` (src/index.ts, lines 45-66). -/
def generateCode (P : Parsers) (freshDir source resourcePath : List Char)
    (attrs : Attrs) (options : VueI18nLoaderOptions) :
    Except LoaderErr (List Char) × List Event :=
  match convert P source attrs.lang with
  | Except.error e => (Except.error e, [])
  | Except.ok data =>
    match P.jsonParse data with
    | Except.error m => (Except.error (LoaderErr.parse m), [])
    | Except.ok parsed =>
      let messages := buildMessages parsed attrs.locale
      if queryTruthy attrs.lazy then
        match stringifyLazyMessages freshDir resourcePath messages options with
        | (Except.ok ms, evs) => (Except.ok (emitModule ms), evs)
        | (Except.error e, evs) => (Except.error e, evs)
      else
        (Except.ok (emitModule (stringifyMessages messages)), [])

/-- Model of `this.version && Number(this.version) >= 2`. -/
def jsVersionOk (version : Option Int) : Bool :=
  match version with
  | none => false
  | some n => if n = 0 then false else decide (2 ≤ n)

/-- The webpack loader context fields the loader reads.  The host parses
the resource query string into `attrs` (the call to Node's
`querystring.parse` sits at the external host boundary). -/
structure LoaderContext where
  version : Option Int
  resourcePath : List Char
  attrs : Attrs
  query : VueI18nLoaderOptions

/-- Translation of the exported `loader` function (src/index.ts, lines
15-43): the version gate, the cacheable mark, and the dual error
reporting (`emitError` plus failure callback), as the event trace of one
invocation. -/
def loader (P : Parsers) (freshDir : List Char) (ctx : LoaderContext)
    (source : List Char) : List Event :=
  if jsVersionOk ctx.version then
    match generateCode P freshDir source ctx.resourcePath ctx.attrs ctx.query with
    | (Except.ok code, evs) =>
      Event.cacheable :: evs ++ [Event.callbackOk code]
    | (Except.error e, evs) =>
      Event.cacheable :: evs ++
        [Event.emitError e.message, Event.callbackErr e.message]
  else
    [Event.emitError "support webpack 2 later".toList,
      Event.callbackErr "support webpack 2 later".toList]

/-- A component as the emitted module sees it: an options object with the
message bag `__i18n` (possibly still unset) and the constructor cache
`_Ctor`. -/
structure ComponentOptions (E : Type) where
  __i18n : Option (List E)
  _Ctor : Option Unit

/-- A component definition. -/
structure Component (E : Type) where
  options : ComponentOptions E

/-- Semantics of the fixed module body emitted by `generateCode`: ensure
the `__i18n` array exists (`|| []`), push the entry, delete `_Ctor`. -/
def applyGenerated {E : Type} (entry : E) (c : Component E) : Component E :=
  { options :=
    { __i18n := some (c.options.__i18n.getD [] ++ [entry])
      _Ctor := none } }

/-- A concrete parser triple for instantiating theorems with hypotheses:
every parse returns the empty object. -/
def constObjParsers : Parsers :=
  ⟨fun _ => Except.ok (Json.obj []), fun _ => Except.ok (Json.obj []),
    fun _ => Except.ok (Json.obj [])⟩

/-- The message table of the worked example in the design document. -/
def demoMessages : Json :=
  Json.obj
    [("en".toList, Json.obj [("hello".toList, Json.str "hi".toList)]),
      ("fr".toList,
        Json.obj [("hello".toList, Json.str "salut".toList),
          ("bonus".toList, Json.str "x".toList)])]

/-- The single-locale resource of the worked example. -/
def helloHi : Json := Json.obj [("hello".toList, Json.str "hi".toList)]

lemma clean_char_step (c : Char) : cleanMessagesString [c] = cleanChar c := by
  by_cases h1 : c = '\u2028'
  · subst h1; decide
  by_cases h2 : c = '\u2029'
  · subst h2; decide
  by_cases h3 : c = '\\'
  · subst h3; decide
  by_cases h4 : c = '\x27'
  · subst h4; decide
  simp [cleanMessagesString, replaceChar, cleanChar, h1, h2, h3, h4]

lemma clean_append (xs ys : List Char) :
    cleanMessagesString (xs ++ ys) = cleanMessagesString xs ++ cleanMessagesString ys := by
  simp [cleanMessagesString, replaceChar, List.flatMap_append]

lemma clean_eq_bind (s : List Char) : cleanMessagesString s = s.flatMap cleanChar := by
  induction s with
  | nil => rfl
  | cons c t ih =>
    have hsplit : c :: t = [c] ++ t := rfl
    rw [hsplit, clean_append, ih, clean_char_step, List.flatMap_append]
    simp [List.flatMap]

lemma jsUnescape_double_backslash (t : List Char) :
    jsUnescape ('\\' :: '\\' :: t) = (jsUnescape t).map ('\\' :: ·) := rfl

lemma jsUnescape_quote_escape (t : List Char) :
    jsUnescape ('\\' :: 'u' :: '0' :: '0' :: '2' :: '7' :: t) =
      (jsUnescape t).map ('\x27' :: ·) := rfl

lemma jsUnescape_cons_ne (c : Char) (t : List Char) (h : c ≠ '\\') :
    jsUnescape (c :: t) = (jsUnescape t).map (c :: ·) := by
  rw [jsUnescape.eq_def]
  simp [h]

/-- C3: the sanitizer applies its substitutions in exactly the source
order (U+2028, U+2029, backslash, quote); composed, they act on each
input character as `cleanChar` describes.  In particular the quote
escape, inserted after the backslash pass, is not re-escaped - but the
separator escapes, inserted before it, come out with their backslash
doubled. -/
theorem cleanMessagesString_char_characterization (s : List Char) :
    cleanMessagesString s = s.flatMap cleanChar :=
  clean_eq_bind s

/-- C3 counterexample: the order does NOT avoid double-escaping the
characters introduced by earlier steps - the backslash inserted by the
U+2028 substitution is itself escaped by the later backslash pass, so a
line separator comes out as `\\u2028`, not the raw U+2028. -/
theorem sanitizer_double_escapes_separator_escape :
    cleanMessagesString ['\u2028'] = "\\\\u2028".toList ∧
      cleanMessagesString ['\u2028'] ≠ "\\u2028".toList :=
  ⟨by decide, by decide⟩

/-- C1 (amended): for input JSON text free of U+2028 and U+2029 -
backslashes and single quotes included - unescaping the literal content
produced by the sanitizer yields back the original text. -/
theorem clean_roundtrip_without_separators (s : List Char)
    (h1 : '\u2028' ∉ s) (h2 : '\u2029' ∉ s) :
    jsUnescape (cleanMessagesString s) = some s := by
  rw [clean_eq_bind]
  induction s with
  | nil => rfl
  | cons c t ih =>
    have hc1 : c ≠ '\u2028' := fun h => h1 (h ▸ List.mem_cons_self c t)
    have hc2 : c ≠ '\u2029' := fun h => h2 (h ▸ List.mem_cons_self c t)
    have ih' := ih (fun h => h1 (List.mem_cons_of_mem c h))
      (fun h => h2 (List.mem_cons_of_mem c h))
    rw [List.flatMap_cons]
    by_cases hb : c = '\\'
    · subst hb
      show jsUnescape ('\\' :: '\\' :: t.flatMap cleanChar) = _
      rw [jsUnescape_double_backslash, ih']
      rfl
    by_cases hq : c = '\x27'
    · subst hq
      show jsUnescape ('\\' :: 'u' :: '0' :: '0' :: '2' :: '7' :: t.flatMap cleanChar) = _
      rw [jsUnescape_quote_escape, ih']
      rfl
    have hchar : cleanChar c = [c] := by simp [cleanChar, hc1, hc2, hb, hq]
    rw [hchar]
    show jsUnescape (c :: t.flatMap cleanChar) = _
    rw [jsUnescape_cons_ne c _ hb, ih']
    rfl

theorem clean_roundtrip_without_separators_witness :
    '\u2028' ∉ "a\\b\x27c".toList ∧ '\u2029' ∉ "a\\b\x27c".toList ∧
      jsUnescape (cleanMessagesString "a\\b\x27c".toList) = some "a\\b\x27c".toList :=
  ⟨by decide, by decide,
    clean_roundtrip_without_separators _ (by decide) (by decide)⟩

/-- C1 counterexample: on an input consisting of the line separator
U+2028, unescaping the sanitizer output yields the six-character escape text, not the original one-character text. -/
theorem clean_roundtrip_fails_on_line_separator :
    jsUnescape (cleanMessagesString ['\u2028']) = some "\\u2028".toList ∧
      jsUnescape (cleanMessagesString ['\u2028']) ≠ some ['\u2028'] :=
  ⟨by decide, by decide⟩

lemma oor_none_right (a : Option Json) : oor a none = a := by
  cases a <;> rfl

lemma lookupProp_append (xs ys : List (List Char × Json)) (key : List Char) :
    lookupProp (xs ++ ys) key = oor (lookupProp xs key) (lookupProp ys key) := by
  induction xs with
  | nil => rfl
  | cons p rest ih =>
    obtain ⟨k, v⟩ := p
    by_cases h : k = key
    · simp [lookupProp, h, oor]
    · simp [lookupProp, h, ih]

lemma lookup_setProp (kvs : List (List Char × Json)) (k key : List Char) (v : Json) :
    lookupProp (setProp kvs k v) key =
      if key = k then some v else lookupProp kvs key := by
  induction kvs with
  | nil =>
    by_cases h : key = k
    · subst h
      simp [setProp, lookupProp]
    · have h' : ¬(k = key) := fun hh => h hh.symm
      simp [setProp, lookupProp, h, h']
  | cons p rest ih =>
    obtain ⟨k1, v1⟩ := p
    by_cases h1 : k1 = k
    · subst h1
      by_cases h2 : key = k1
      · subst h2
        simp [setProp, lookupProp]
      · have h3 : ¬(k1 = key) := fun hh => h2 hh.symm
        simp [setProp, lookupProp, h2, h3]
    · by_cases h2 : k1 = key
      · have h3 : ¬(key = k) := fun hh => h1 (by rw [h2, hh])
        simp [setProp, lookupProp, h1, h2, h3]
      · simp [setProp, lookupProp, h1, h2, ih]

lemma foldl_setProp_lookup (entries : List (List Char × Json))
    (acc : List (List Char × Json)) (key : List Char) :
    lookupProp (entries.foldl (fun a p => setProp a p.1 p.2) acc) key =
      oor (lastLookup entries key) (lookupProp acc key) := by
  induction entries generalizing acc with
  | nil => simp [lastLookup, lookupProp, oor]
  | cons p rest ih =>
    obtain ⟨k, v⟩ := p
    rw [List.foldl_cons, ih, lookup_setProp]
    have hr : lastLookup ((k, v) :: rest) key =
        oor (lastLookup rest key) (if k = key then some v else none) := by
      simp [lastLookup, List.reverse_cons, lookupProp_append, lookupProp]
    rw [hr]
    cases hcase : lastLookup rest key with
    | some w => simp [oor]
    | none =>
      by_cases hk : key = k
      · subst hk; simp [oor]
      · have hk2 : ¬(k = key) := fun hh => hk hh.symm
        simp [oor, hk, hk2]

lemma keysOf_cons (p : List Char × Json) (rest : List (List Char × Json)) :
    keysOf (p :: rest) = p.1 :: keysOf rest := rfl

lemma objectFrom_lookup (entries : List (List Char × Json)) (key : List Char) :
    lookupProp (objectFrom entries) key = lastLookup entries key := by
  rw [objectFrom, foldl_setProp_lookup]
  simp [lookupProp, oor_none_right]

lemma lastLookup_append (xs ys : List (List Char × Json)) (key : List Char) :
    lastLookup (xs ++ ys) key = oor (lastLookup ys key) (lastLookup xs key) := by
  simp [lastLookup, List.reverse_append, lookupProp_append]

lemma lookupProp_eq_none_of_not_mem (kvs : List (List Char × Json))
    (key : List Char) (h : key ∉ keysOf kvs) : lookupProp kvs key = none := by
  induction kvs with
  | nil => rfl
  | cons p rest ih =>
    obtain ⟨k, v⟩ := p
    rw [keysOf_cons] at h
    simp only [List.mem_cons, not_or] at h
    have hk : ¬(k = key) := fun hh => h.1 hh.symm
    simp [lookupProp, hk, ih h.2]

lemma lastLookup_eq_none_of_not_mem (kvs : List (List Char × Json))
    (key : List Char) (h : key ∉ keysOf kvs) : lastLookup kvs key = none := by
  apply lookupProp_eq_none_of_not_mem
  intro hm
  apply h
  have hrev : keysOf kvs.reverse = (keysOf kvs).reverse := by
    simp [keysOf, List.map_reverse]
  rw [hrev] at hm
  exact List.mem_reverse.mp hm

lemma lastLookup_eq_lookup_of_nodup (kvs : List (List Char × Json))
    (key : List Char) (h : (keysOf kvs).Nodup) :
    lastLookup kvs key = lookupProp kvs key := by
  induction kvs with
  | nil => rfl
  | cons p rest ih =>
    obtain ⟨k, v⟩ := p
    rw [keysOf_cons, List.nodup_cons] at h
    have hstep : lastLookup ((k, v) :: rest) key =
        oor (lastLookup rest key) (if k = key then some v else none) := by
      simp [lastLookup, List.reverse_cons, lookupProp_append, lookupProp]
    rw [hstep, ih h.2]
    by_cases hkey : k = key
    · subst hkey
      rw [lookupProp_eq_none_of_not_mem rest k h.1]
      simp [lookupProp, oor]
    · simp only [lookupProp, hkey, if_false]
      cases lookupProp rest key <;> simp [oor]

lemma setProp_append_of_not_mem (kvs : List (List Char × Json))
    (k : List Char) (v : Json) (h : k ∉ keysOf kvs) :
    setProp kvs k v = kvs ++ [(k, v)] := by
  induction kvs with
  | nil => rfl
  | cons p rest ih =>
    obtain ⟨k1, v1⟩ := p
    rw [keysOf_cons] at h
    simp only [List.mem_cons, not_or] at h
    have h1 : ¬(k1 = k) := fun hh => h.1 hh.symm
    simp [setProp, h1, ih h.2]

lemma foldl_setProp_id (entries acc : List (List Char × Json))
    (h : (keysOf (acc ++ entries)).Nodup) :
    entries.foldl (fun a p => setProp a p.1 p.2) acc = acc ++ entries := by
  induction entries generalizing acc with
  | nil => simp
  | cons p rest ih =>
    obtain ⟨k, v⟩ := p
    have hflat : keysOf (acc ++ (k, v) :: rest) = keysOf acc ++ k :: keysOf rest := by
      simp [keysOf]
    rw [hflat] at h
    have hsplit := List.nodup_append.mp h
    have hk : k ∉ keysOf acc := fun hmem => hsplit.2.2 hmem (List.mem_cons_self k _)
    rw [List.foldl_cons, setProp_append_of_not_mem acc k v hk, ih (acc ++ [(k, v)])]
    · simp
    · have : keysOf ((acc ++ [(k, v)]) ++ rest) = keysOf acc ++ k :: keysOf rest := by
        simp [keysOf]
      rw [this]
      exact h

lemma objectFrom_id_of_nodup (entries : List (List Char × Json))
    (h : (keysOf entries).Nodup) : objectFrom entries = entries := by
  have := foldl_setProp_id entries [] (by simpa using h)
  simpa [objectFrom] using this

lemma isEmpty_false_of_ne_nil {l : List Char} (h : l ≠ []) :
    l.isEmpty = false := by
  cases l with
  | nil => exact absurd rfl h
  | cons a t => rfl

/-- C2: with both options supplied, the materializer returns the dynamic
require string and its trace is one directory allocation followed by
exactly one fragment write per requested locale, at
`<scratchDir>/__vue-i18n__<locale>__<filename>`, holding the two-space
pretty-printed JSON of the locale-wrapped merge; the merge treats an
absent locale as empty (pure fallback), treats an absent fallback key as
empty without failing, and lets the override win key by key. -/
theorem lazy_materializer_fragments (freshDir filename : List Char)
    (messages : Json) (ls : List (List Char)) (fb : List Char) (hfb : fb ≠ []) :
    (generateDynamicRequireString freshDir filename messages ⟨some ls, some fb⟩ =
      (Except.ok (requireStr freshDir filename),
        Event.allocDir freshDir ::
          ls.map (fun l =>
            Event.writeFile (fragPath freshDir l filename)
              (serializeJson "  ".toList [] (localeSpecificMessages messages fb l)))))
    ∧ (∀ l bkvs, jsIndex messages l = none →
        jsIndex messages fb = some (Json.obj bkvs) → (keysOf bkvs).Nodup →
        localeSpecificMessages messages fb l = Json.obj [(l, Json.obj bkvs)])
    ∧ (∀ l okvs, jsIndex messages fb = none →
        jsIndex messages l = some (Json.obj okvs) → (keysOf okvs).Nodup →
        localeSpecificMessages messages fb l = Json.obj [(l, Json.obj okvs)])
    ∧ (∀ l bkvs okvs key, jsIndex messages fb = some (Json.obj bkvs) →
        jsIndex messages l = some (Json.obj okvs) →
        lookupProp (mergedOf messages fb l) key =
          oor (lastLookup okvs key) (lastLookup bkvs key)) := by
  refine ⟨?_, ?_, ?_, ?_⟩
  · simp [generateDynamicRequireString, isEmpty_false_of_ne_nil hfb]
  · intro l bkvs hl hfbi hnd
    rw [localeSpecificMessages, mergedOf, hl, hfbi]
    simp only [objSpread, jsOrEmptyObj, List.append_nil]
    rw [objectFrom_id_of_nodup bkvs hnd]
  · intro l okvs hfbi hl hnd
    rw [localeSpecificMessages, mergedOf, hl, hfbi]
    simp only [objSpread, jsOrEmptyObj, jsTruthy, if_true, List.nil_append]
    rw [objectFrom_id_of_nodup okvs hnd]
  · intro l bkvs okvs key hfbi hl
    rw [mergedOf, hl, hfbi]
    simp only [objSpread, jsOrEmptyObj, jsTruthy, if_true]
    rw [objectFrom_lookup, lastLookup_append]

theorem lazy_materializer_fragments_witness :
    "en".toList ≠ ([] : List Char) ∧
      (generateDynamicRequireString "/tmp/s".toList "App.vue".toList demoMessages
          ⟨some ["fr".toList, "de".toList], some "en".toList⟩).1 =
        Except.ok (requireStr "/tmp/s".toList "App.vue".toList) := by
  refine ⟨by decide, ?_⟩
  rw [(lazy_materializer_fragments "/tmp/s".toList "App.vue".toList demoMessages
    ["fr".toList, "de".toList] "en".toList (by decide)).1]

example :
    mergedOf demoMessages "en".toList "fr".toList =
      [("hello".toList, Json.str "salut".toList),
        ("bonus".toList, Json.str "x".toList)] := rfl

example :
    mergedOf demoMessages "en".toList "de".toList =
      [("hello".toList, Json.str "hi".toList)] := rfl

/-- C4: when the lazy attribute is truthy and either option is missing,
the pipeline fails with the configuration error and its effect trace is
empty - no scratch directory allocation, no fragment write. -/
theorem lazy_missing_options_config_error (P : Parsers)
    (freshDir source resourcePath : List Char) (attrs : Attrs)
    (options : VueI18nLoaderOptions)
    (hlazy : queryTruthy attrs.lazy = true)
    (hopt : options.locales = none ∨ options.fallbackLocale = none)
    (data : List Char) (hconv : convert P source attrs.lang = Except.ok data)
    (parsed : Json) (hparse : P.jsonParse data = Except.ok parsed) :
    generateCode P freshDir source resourcePath attrs options =
      (Except.error LoaderErr.config, []) := by
  obtain ⟨lo, fbo⟩ := options
  have hgen : ∀ fn msgs, generateDynamicRequireString freshDir fn msgs ⟨lo, fbo⟩ =
      (Except.error LoaderErr.config, []) := by
    intro fn msgs
    rcases hopt with h | h
    · simp only at h
      subst h
      cases fbo <;> rfl
    · simp only at h
      subst h
      cases lo <;> rfl
  simp [generateCode, hconv, hparse, hlazy, stringifyLazyMessages, hgen]

theorem lazy_missing_options_config_error_witness :
    queryTruthy (QueryValue.str "1".toList) = true ∧
      generateCode constObjParsers "/tmp/s".toList "src".toList "/a.vue".toList
          ⟨QueryValue.absent, QueryValue.absent, QueryValue.str "1".toList⟩
          ⟨none, none⟩ =
        (Except.error LoaderErr.config, []) :=
  ⟨rfl, lazy_missing_options_config_error constObjParsers "/tmp/s".toList
    "src".toList "/a.vue".toList
    ⟨QueryValue.absent, QueryValue.absent, QueryValue.str "1".toList⟩
    ⟨none, none⟩ rfl (Or.inl rfl) "src".toList rfl (Json.obj []) rfl⟩

/-- C5: the format converter parses YAML input (tag `yaml` or `yml`) and
re-serializes it tab-indented, parses relaxed JSON (tag `json5`) and
re-serializes it compact, and passes every other tag through unchanged
with no validation; it is a total function of its inputs with no effect
trace. -/
theorem convert_dispatch (P : Parsers) (source : List Char) :
    (∀ d, P.yamlParse source = Except.ok d →
      convert P source (QueryValue.str "yaml".toList) =
          Except.ok (serializeJson "\t".toList [] d) ∧
        convert P source (QueryValue.str "yml".toList) =
          Except.ok (serializeJson "\t".toList [] d))
    ∧ (∀ m, P.yamlParse source = Except.error m →
      convert P source (QueryValue.str "yaml".toList) =
          Except.error (LoaderErr.parse m) ∧
        convert P source (QueryValue.str "yml".toList) =
          Except.error (LoaderErr.parse m))
    ∧ (∀ d, P.json5Parse source = Except.ok d →
      convert P source (QueryValue.str "json5".toList) =
        Except.ok (serializeJson [] [] d))
    ∧ (∀ m, P.json5Parse source = Except.error m →
      convert P source (QueryValue.str "json5".toList) =
        Except.error (LoaderErr.parse m))
    ∧ (∀ lang, lang ≠ QueryValue.str "yaml".toList →
        lang ≠ QueryValue.str "yml".toList →
        lang ≠ QueryValue.str "json5".toList →
        convert P source lang = Except.ok source) := by
  refine ⟨?_, ?_, ?_, ?_, ?_⟩
  · intro d h
    constructor <;> simp [convert, h]
  · intro m h
    constructor <;> simp [convert, h]
  · intro d h
    simp [convert, h]
  · intro m h
    simp [convert, h]
  · intro lang h1 h2 h3
    unfold convert
    rw [if_neg (fun hor => hor.elim h1 h2), if_neg h3]

theorem convert_dispatch_witness :
    QueryValue.absent ≠ QueryValue.str "yaml".toList ∧
      QueryValue.absent ≠ QueryValue.str "yml".toList ∧
      QueryValue.absent ≠ QueryValue.str "json5".toList ∧
      convert constObjParsers "x".toList QueryValue.absent =
        Except.ok "x".toList :=
  ⟨by decide, by decide, by decide,
    (convert_dispatch constObjParsers "x".toList).2.2.2.2 QueryValue.absent
      (by decide) (by decide) (by decide)⟩

/-- C6: a non-empty string locale override wraps the parsed value under
that single locale key, discarding any top-level multi-locale reading;
with no override the parsed value is used as-is. -/
theorem locale_override_wraps (parsed : Json) (l : List Char) (h : l ≠ []) :
    buildMessages parsed (QueryValue.str l) = Json.obj [(l, parsed)] ∧
      buildMessages parsed QueryValue.absent = parsed := by
  constructor
  · simp [buildMessages, isEmpty_false_of_ne_nil h]
  · rfl

theorem locale_override_wraps_witness :
    "en".toList ≠ ([] : List Char) ∧
      buildMessages helloHi (QueryValue.str "en".toList) =
        Json.obj [("en".toList, helloHi)] :=
  ⟨by decide, (locale_override_wraps helloHi "en".toList (by decide)).1⟩

/-- C10: the wrap happens only for a truthy string: a repeated `locale`
parameter (array value) and the empty string leave the parsed messages
untouched. -/
theorem locale_override_skips_non_string (parsed : Json)
    (ss : List (List Char)) :
    buildMessages parsed (QueryValue.strs ss) = parsed ∧
      buildMessages parsed (QueryValue.str []) = parsed :=
  ⟨rfl, rfl⟩

/-- C7: with the host version absent or below 2 the loader reports the
capability error on both channels (emitError and the failure callback)
and does nothing else - the trace is independent of the resource, no
cacheable mark is set, and the pipeline is never entered. -/
theorem unsupported_version_aborts (P : Parsers) (freshDir : List Char)
    (ctx : LoaderContext) (source : List Char)
    (h : ctx.version = none ∨ ∃ v, ctx.version = some v ∧ v < 2) :
    loader P freshDir ctx source =
      [Event.emitError "support webpack 2 later".toList,
        Event.callbackErr "support webpack 2 later".toList] := by
  have hv : jsVersionOk ctx.version = false := by
    rcases h with h | ⟨v, hve, hlt⟩
    · rw [h]; rfl
    · rw [hve]
      simp only [jsVersionOk]
      by_cases h0 : v = 0
      · simp [h0]
      · simp only [h0, if_false]
        simp
        omega
  simp [loader, hv]

theorem unsupported_version_aborts_witness :
    ((none : Option Int) = none ∨
        ∃ v, (none : Option Int) = some v ∧ v < 2) ∧
      loader constObjParsers "/tmp/s".toList
          ⟨none, "/a.vue".toList,
            ⟨QueryValue.absent, QueryValue.absent, QueryValue.absent⟩,
            ⟨none, none⟩⟩ "x".toList =
        [Event.emitError "support webpack 2 later".toList,
          Event.callbackErr "support webpack 2 later".toList] :=
  ⟨Or.inl rfl,
    unsupported_version_aborts constObjParsers "/tmp/s".toList
      ⟨none, "/a.vue".toList,
        ⟨QueryValue.absent, QueryValue.absent, QueryValue.absent⟩,
        ⟨none, none⟩⟩ "x".toList (Or.inl rfl)⟩

/-- C8 (amended): the lazy path is taken exactly when the parsed `lazy`
query value is TRUTHY - a non-empty string or an array (repeated
parameter) - not merely present: an absent value and the empty-string
value a bare `lazy` parameter parses to both take the eager
sanitize-and-serialize path. -/
theorem lazy_branch_truthiness (P : Parsers)
    (freshDir source resourcePath : List Char) (lang loc lz : QueryValue)
    (options : VueI18nLoaderOptions) (data : List Char)
    (hconv : convert P source lang = Except.ok data) (parsed : Json)
    (hparse : P.jsonParse data = Except.ok parsed) :
    (queryTruthy lz = false →
      generateCode P freshDir source resourcePath ⟨lang, loc, lz⟩ options =
        (Except.ok (emitModule (stringifyMessages (buildMessages parsed loc))),
          []))
    ∧ (queryTruthy lz = true →
      generateCode P freshDir source resourcePath ⟨lang, loc, lz⟩ options =
        (match stringifyLazyMessages freshDir resourcePath
            (buildMessages parsed loc) options with
          | (Except.ok ms, evs) => (Except.ok (emitModule ms), evs)
          | (Except.error e, evs) => (Except.error e, evs)))
    ∧ queryTruthy QueryValue.absent = false
    ∧ queryTruthy (QueryValue.str []) = false
    ∧ (∀ s, s ≠ [] → queryTruthy (QueryValue.str s) = true)
    ∧ (∀ ss, queryTruthy (QueryValue.strs ss) = true) := by
  refine ⟨?_, ?_, rfl, rfl, ?_, fun ss => rfl⟩
  · intro h
    simp [generateCode, hconv, hparse, h]
  · intro h
    simp [generateCode, hconv, hparse, h]
  · intro s h
    simp [queryTruthy, h]

theorem lazy_branch_truthiness_witness :
    convert constObjParsers "src".toList QueryValue.absent =
        Except.ok "src".toList ∧
      constObjParsers.jsonParse "src".toList = Except.ok (Json.obj []) ∧
      generateCode constObjParsers "/tmp/s".toList "src".toList "/a.vue".toList
          ⟨QueryValue.absent, QueryValue.absent, QueryValue.str []⟩
          ⟨none, none⟩ =
        (Except.ok (emitModule (stringifyMessages
          (buildMessages (Json.obj []) QueryValue.absent))), []) :=
  ⟨rfl, rfl,
    (lazy_branch_truthiness constObjParsers "/tmp/s".toList "src".toList
      "/a.vue".toList QueryValue.absent QueryValue.absent (QueryValue.str [])
      ⟨none, none⟩ "src".toList rfl (Json.obj []) rfl).1 rfl⟩

/-- C8 counterexample: a `lazy` parameter that is present with the empty
value (what `querystring.parse` yields for a bare `lazy` in the query
string) does NOT select the lazy path - the invocation behaves exactly
like one with no `lazy` parameter at all, while a non-empty value selects
the lazy path (visible here as the lazy configuration error). -/
theorem lazy_present_empty_takes_eager_path :
    QueryValue.str [] ≠ QueryValue.absent ∧
      generateCode constObjParsers "/tmp/s".toList "src".toList "/a.vue".toList
          ⟨QueryValue.absent, QueryValue.absent, QueryValue.str []⟩
          ⟨none, none⟩ =
        generateCode constObjParsers "/tmp/s".toList "src".toList "/a.vue".toList
          ⟨QueryValue.absent, QueryValue.absent, QueryValue.absent⟩
          ⟨none, none⟩ ∧
      generateCode constObjParsers "/tmp/s".toList "src".toList "/a.vue".toList
          ⟨QueryValue.absent, QueryValue.absent, QueryValue.str "1".toList⟩
          ⟨none, none⟩ =
        (Except.error LoaderErr.config, []) :=
  ⟨by decide, rfl, rfl⟩

/-- C9: the emitter output is the fixed module shape with the entry
spliced in verbatim, and the module body's semantics compose: applying
it twice pushes twice into `__i18n` (the bag grows by two, no
overwrite) and clears `_Ctor`. -/
theorem code_emitter_shape_and_compose :
    (∀ m : List Char, emitModule m = emitHead ++ m ++ emitTail) ∧
    (∀ (E : Type) (c : Component E) (e1 e2 : E),
      (applyGenerated e2 (applyGenerated e1 c)).options.__i18n =
          some (c.options.__i18n.getD [] ++ [e1, e2]) ∧
        ((applyGenerated e2 (applyGenerated e1 c)).options.__i18n.getD
            []).length =
          (c.options.__i18n.getD []).length + 2 ∧
        (applyGenerated e1 c).options._Ctor = none) := by
  refine ⟨fun m => rfl, fun E c e1 e2 => ⟨?_, ?_, rfl⟩⟩
  · simp [applyGenerated]
  · simp [applyGenerated]
